import Mathlib

/-!
Verification of the subcommand dispatcher in `cli.go` (package `cli`).

Strings are embedded as `List Char`; the radix tree dependency
(`mlib.com/mrun/containers/tree/radix`) is embedded as an association list
with the exact-lookup / longest-prefix contract the dispatcher relies on.
The argument scanner `processArgs`, registry construction in `init`, the
parent computation `subcommandParent` and the dispatch method `Run` are
translated statement by statement from `cli.go`; help rendering is
abstracted into sink messages tagged with the path they describe.
-/

namespace CliSpec

/-- A Go string, embedded as its list of characters. -/
abbrev Str := List Char

/-- Convenience conversion from Lean string literals. -/
def str (s : String) : Str := s.toList

/-- The space character (U+0020). -/
def spaceChar : Char := Char.ofNat 32

/-- Go `unicode.IsSpace` on the ASCII range (the only characters the
dispatcher's own logic and the claims exercise). -/
def goIsSpace (c : Char) : Bool :=
  c = spaceChar || c = Char.ofNat 9 || c = Char.ofNat 10 ||
    c = Char.ofNat 11 || c = Char.ofNat 12 || c = Char.ofNat 13

/-- Go `strings.TrimSpace`. -/
def trimSpace (s : Str) : Str :=
  ((s.dropWhile goIsSpace).reverse.dropWhile goIsSpace).reverse

/-- Go `strings.TrimRight(s, " ")`: drop trailing space characters only. -/
def trimRightSpaces (s : Str) : Str :=
  (s.reverse.dropWhile (· = spaceChar)).reverse

/-- Go `strings.ContainsRune(s, ' ')`. -/
def containsSpace (s : Str) : Bool := s.contains spaceChar

/-- Go `strings.Count(s, " ")` (for the single-character pattern `" "`
this is the number of space characters). -/
def countSpaces (s : Str) : Nat := s.count spaceChar

/-- Go `k[:strings.LastIndex(k, " ")]`: the text before the last space,
or `none` when no space occurs (`LastIndex` returns `-1`). -/
def cutLast : Str → Option Str
  | [] => none
  | c :: rest =>
    match cutLast rest with
    | some p => some (c :: p)
    | none => if c = spaceChar then some [] else none

/-- A `cli.Command` value: the capability set the dispatcher consumes
(`Help`, `Synopsis`, `Run`). -/
structure Command where
  help : Str
  synopsis : Str
  runFn : List Str → Int

/-- A `cli.CommandFactory`: returns a command or a construction error. -/
abbrev CommandFactory := Except Unit Command

/-- The radix tree of the dispatcher, embedded as an association list from
full command paths to factories. -/
abbrev Tree := List (Str × CommandFactory)

/-- `radix.Tree.Insert`: last write for a duplicate key wins. -/
def treeInsert (t : Tree) (k : Str) (v : CommandFactory) : Tree :=
  if t.any (fun p => p.1 == k) then
    t.map (fun p => if p.1 == k then (k, v) else p)
  else t ++ [(k, v)]

/-- `radix.Tree.Get`: exact lookup. -/
def treeGet (t : Tree) (k : Str) : Option CommandFactory :=
  (t.find? (fun p => p.1 == k)).map Prod.snd

/-- The registered keys. -/
def treeKeys (t : Tree) : List Str := t.map Prod.fst

/-- `radix.Tree.LongestPrefix s`: the longest registered key that is a
character-level prefix of `s`, with its value; `none` when no registered
key is a prefix of `s`. -/
def longestPrefixMatch (t : Tree) (s : Str) : Option (Str × CommandFactory) :=
  (t.filter (fun p => p.1.isPrefixOf s)).foldl
    (fun acc p =>
      match acc with
      | none => some p
      | some q => if q.1.length < p.1.length then some p else some q)
    none

/-- Modelled from the spec: the reserved result sentinel `RunResultHelp`
(declared in the repository outside the provided sources), "a distinguished
integer value that a command's run may return to request its own help be
shown instead of treating the value as a literal exit code". -/
def RunResultHelp : Int := -18511

/-- Modelled from the spec: the placeholder factory inserted for missing
parents, a no-op `MockCommand` whose help text explains "pick a
subcommand" and whose run result is the sentinel `RunResultHelp`
(the `MockCommand` declaration itself lives outside the provided sources;
its fields are taken from the literal in `cli.go`'s `init`). -/
def placeholderFactory : CommandFactory :=
  Except.ok
    { help := str "This command is accessed by using one of the subcommands below."
      synopsis := []
      runFn := fun _ => RunResultHelp }

/-- The caller-facing state of a `CLI` value that the dispatcher reads:
the argument vector, the `Commands` mapping (as an association list) and
the `Version` string. -/
structure CLI where
  Args : List Str
  Commands : List (Str × CommandFactory)
  Version : Str

/-- First loop of `init`: insert every caller-supplied entry under its
`strings.TrimSpace`-trimmed key. -/
def buildTree0 (cmds : List (Str × CommandFactory)) : Tree :=
  cmds.foldl (fun t p => treeInsert t (trimSpace p.1) p.2) []

/-- `commandNested` as computed by `init`: some trimmed key contains a
space. -/
def commandNested (cmds : List (Str × CommandFactory)) : Bool :=
  cmds.any (fun p => containsSpace (trimSpace p.1))

/-- Fuel-indexed form of `walkFn`'s ancestor recursion (each `cutLast`
strictly shortens the key, so `k.length` fuel is always enough; the fuel
keeps the recursion structural so that the kernel can evaluate it). -/
def missingAncestorsAux (t : Tree) : Nat → Str → List Str
  | 0, _ => []
  | fuel + 1, k =>
    match cutLast k with
    | none => []
    | some p =>
      if (treeGet t p).isSome then [] else p :: missingAncestorsAux t fuel p

/-- `walkFn` of `init`: the chain of ancestors of `k` that are missing from
`t` (trimming at the last space at each step, stopping at a present
ancestor or at a top-level key). -/
def missingAncestors (t : Tree) (k : Str) : List Str :=
  missingAncestorsAux t k.length k

/-- Registry construction in `init`: build the trimmed tree, then (when
nested) walk every key, collect missing ancestors and insert a placeholder
factory for each. -/
def buildTree (cmds : List (Str × CommandFactory)) : Tree :=
  let t0 := buildTree0 cmds
  if commandNested cmds then
    ((treeKeys t0).flatMap (missingAncestors t0)).foldl
      (fun t k => treeInsert t k placeholderFactory) t0
  else t0

/-- The dispatch state built by `processArgs`. -/
structure ScanState where
  isHelp : Bool
  isVersion : Bool
  subcommand : Str
  subcommandArgs : List Str
  topFlags : List Str
deriving Repr, DecidableEq

/-- The zero value of the internal fields before `processArgs` runs. -/
def initState : ScanState :=
  { isHelp := false, isVersion := false, subcommand := [],
    subcommandArgs := [], topFlags := [] }

/-- The help-flag tokens of `processArgs`. -/
def isHelpTok (a : Str) : Bool :=
  a == str "-h" || a == str "-help" || a == str "--help"

/-- The version-flag tokens of `processArgs`. -/
def isVersionTok (a : Str) : Bool :=
  a == str "-v" || a == str "-version" || a == str "--version"

/-- A token that keeps extending the nested search key: non-empty, without
a space, and not starting with `-` (the negation of the break condition of
the inner loop of `processArgs`). -/
def validTok (v : Str) : Bool :=
  !containsSpace v && !(v == []) && !(v.head? == some '-')

/-- Go `strings.Join(parts, " ")`. -/
def joinSpace : List Str → Str
  | [] => []
  | [x] => x
  | x :: y :: rest => x ++ spaceChar :: joinSpace (y :: rest)

/-- The verification regex of `processArgs`:
`regexp.MustCompile(regexp.QuoteMeta(k) + "( |$)").MatchString(s)`.
`QuoteMeta` makes `k` a literal and `MatchString` is unanchored, so this
holds iff `k` occurs at SOME offset of `s` immediately followed by a space
or by the end of `s`. -/
def reVerifyMatch (k s : Str) : Bool :=
  (List.range (s.length + 1)).any (fun i =>
    let rest := s.drop i
    k.isPrefixOf rest &&
      (rest.length == k.length || (rest.drop k.length).head? == some spaceChar))

/-- The nested command step of `processArgs`: starting at the command
token `arg` followed by `rest`, extend the search key over the maximal run
of valid tokens (Go computes `j` starting from `0` and sets `j = i+k+1`
for every leading valid token of `Args[i:]`; since the step is only taken
when `Args[i]` itself is valid, `j - i` equals the length of that run),
look the key up by longest prefix, and verify the match with the regex.
The result is the new subcommand together with the number of extra tokens
that were consumed (`strings.Count(k, " ")`, by which Go advances `i`
before slicing `Args[i+1:]`). -/
def searchKeyOf (arg : Str) (rest : List Str) : Str :=
  joinSpace ((arg :: rest).take ((arg :: rest).takeWhile validTok).length)

def nestedStep (t : Tree) (arg : Str) (rest : List Str) : Str × Nat :=
  match longestPrefixMatch t (searchKeyOf arg rest) with
  | some kf =>
    if reVerifyMatch kf.1 (searchKeyOf arg rest) then (kf.1, countSpaces kf.1)
    else (arg, 0)
  | none => (arg, 0)

/-- The scanning loop of `processArgs` over the argument vector.  The
returned flag records whether the loop exited through the early `return`
taken for a space-containing command token in nested mode (in which case
the default-command switch at the end of `processArgs` is skipped).
After an accepted nested match the slice `Args[i+1:]` taken with the
advanced `i` is `rest.drop (nestedStep ...).2`; the range loop itself
still resumes from the original position. -/
def scanLoop (nested : Bool) (t : Tree) : List Str → ScanState → ScanState × Bool
  | [], st => (st, false)
  | arg :: rest, st =>
    if arg == str "--" then (st, false)
    else if isHelpTok arg then
      scanLoop nested t rest { st with isHelp := true }
    else if st.subcommand == [] then
      if isVersionTok arg then
        scanLoop nested t rest { st with isVersion := true }
      else if !(arg == []) && arg.head? == some '-' then
        scanLoop nested t rest { st with topFlags := st.topFlags ++ [arg] }
      else if !(arg == []) then
        if nested then
          if containsSpace arg then ({ st with subcommand := [] }, true)
          else
            scanLoop nested t rest
              { st with subcommand := (nestedStep t arg rest).1,
                        subcommandArgs := rest.drop (nestedStep t arg rest).2 }
        else
          scanLoop nested t rest
            { st with subcommand := arg, subcommandArgs := rest }
      else scanLoop nested t rest st
    else scanLoop nested t rest st

/-- Whether the caller-supplied `Commands` map has an entry under the
literal empty key (the untrimmed map is what the default-command switch of
`processArgs` consults). -/
def hasEmptyKey (cmds : List (Str × CommandFactory)) : Bool :=
  cmds.any (fun p => p.1 == [])

/-- The scan of the argument vector against the constructed registry. -/
def scanOf (cmds : List (Str × CommandFactory)) (args : List Str) :
    ScanState × Bool :=
  scanLoop (commandNested cmds) (buildTree cmds) args initState

/-- `processArgs`: run the scanning loop, then switch to the default
command when no subcommand was found, the loop was not aborted, and the
original `Commands` map has a `""` entry. -/
def processArgs (cmds : List (Str × CommandFactory)) (args : List Str) :
    ScanState :=
  let (st, early) := scanOf cmds args
  if early then st
  else if st.subcommand == [] && hasEmptyKey cmds then
    { st with subcommandArgs := st.topFlags ++ st.subcommandArgs, topFlags := [] }
  else st

/-- `subcommandParent`: `""` for the empty path; otherwise trim trailing
spaces and cut at the last remaining space (root when there is none). -/
def subcommandParent (sub : Str) : Str :=
  if sub == [] then sub
  else
    match cutLast (trimRightSpaces sub) with
    | none => []
    | some p => p

/-- Fuel-indexed chain of all ancestors of a key (trim at the last space
repeatedly until no space remains). -/
def ancestorChainAux : Nat → Str → List Str
  | 0, _ => []
  | fuel + 1, k =>
    match cutLast k with
    | none => []
    | some p => p :: ancestorChainAux fuel p

/-- All ancestor paths of a key, obtained by repeatedly trimming the key
at its last space. -/
def ancestorChain (k : Str) : List Str := ancestorChainAux k.length k

/-- One write to an output sink, abstracting what text the write renders:
the version string, a `HelpFunc` listing for a path's subcommands, a
`commandHelp` rendering for a resolved path, or the leading-flag
diagnostic. -/
inductive SinkMsg where
  | version (v : Str)
  | helpListing (path : Str)
  | commandHelp (path : Str)
  | flagDiagnostic
deriving Repr, DecidableEq

/-- The observable behaviour of one `Run` invocation: the returned exit
code, whether the returned `error` is non-nil, the writes to the help and
error sinks, how many times the resolved factory was invoked, and the
argument list the command was executed with (if it was). -/
structure RunOutput where
  code : Int
  errOut : Bool
  helpSink : List SinkMsg
  errSink : List SinkMsg
  factoryCalls : Nat
  ranWith : Option (List Str)
deriving Repr, DecidableEq

/-- The body of `CLI.Run` over the memoized dispatch state, registry and
version string, translated branch by branch from `cli.go`. -/
def runWith (st : ScanState) (t : Tree) (version : Str) : RunOutput :=
  if st.isVersion && !(version == []) then
    { code := 0, errOut := false, helpSink := [.version version],
      errSink := [], factoryCalls := 0, ranWith := none }
  else if st.isHelp && st.subcommand == [] then
    { code := 0, errOut := false, helpSink := [.helpListing st.subcommand],
      errSink := [], factoryCalls := 0, ranWith := none }
  else
    match treeGet t st.subcommand with
    | none =>
      { code := 127, errOut := false, helpSink := [],
        errSink := [.helpListing (subcommandParent st.subcommand)],
        factoryCalls := 0, ranWith := none }
    | some (Except.error _) =>
      { code := 1, errOut := true, helpSink := [], errSink := [],
        factoryCalls := 1, ranWith := none }
    | some (Except.ok cmd) =>
      if st.isHelp then
        { code := 0, errOut := false, helpSink := [.commandHelp st.subcommand],
          errSink := [], factoryCalls := 1, ranWith := none }
      else if !(st.topFlags == []) then
        { code := 1, errOut := false, helpSink := [],
          errSink := [.flagDiagnostic, .commandHelp st.subcommand],
          factoryCalls := 1, ranWith := none }
      else
        if cmd.runFn st.subcommandArgs = RunResultHelp then
          { code := 1, errOut := false, helpSink := [],
            errSink := [.commandHelp st.subcommand], factoryCalls := 1,
            ranWith := some st.subcommandArgs }
        else
          { code := cmd.runFn st.subcommandArgs, errOut := false, helpSink := [],
            errSink := [], factoryCalls := 1, ranWith := some st.subcommandArgs }

/-- `CLI.Run`. -/
def Run (c : CLI) : RunOutput :=
  runWith (processArgs c.Commands c.Args) (buildTree c.Commands) c.Version

/-- All caller-supplied factories construct successfully. -/
def factoriesOk (cmds : List (Str × CommandFactory)) : Bool :=
  cmds.all (fun p => p.2.isOk)

/-- Is this write a version string? -/
def isVersionMsg : SinkMsg → Bool
  | .version _ => true
  | _ => false

/-- Is this write a `HelpFunc` listing? -/
def isListingMsg : SinkMsg → Bool
  | .helpListing _ => true
  | _ => false

/-- Is this write a `commandHelp` rendering? -/
def isCommandHelpMsg : SinkMsg → Bool
  | .commandHelp _ => true
  | _ => false

/-- Is this write the leading-flag diagnostic? -/
def isFlagDiagMsg : SinkMsg → Bool
  | .flagDiagnostic => true
  | _ => false

/-- Outcome "version-shown": the version string was written. -/
def versionShown (o : RunOutput) : Bool := o.helpSink.any isVersionMsg

/-- Outcome "help-shown": a help rendering was written to the help sink
(root listing or a resolved command's help, both with exit code 0). -/
def helpShown (o : RunOutput) : Bool :=
  o.helpSink.any (fun m => isListingMsg m || isCommandHelpMsg m)

/-- Outcome "command-dispatched": the resolved command's `Run` was
invoked. -/
def commandDispatched (o : RunOutput) : Bool := o.ranWith.isSome

/-- Outcome "unresolved-127": a listing for the parent of an unresolvable
path was written to the error sink. -/
def unresolved127 (o : RunOutput) : Bool := o.errSink.any isListingMsg

/-- Outcome "leading-flag-error": the leading-flag diagnostic was
written. -/
def leadingFlagError (o : RunOutput) : Bool := o.errSink.any isFlagDiagMsg

/-- How many of the five §8 outcomes an invocation produced. -/
def outcomeCount (o : RunOutput) : Nat :=
  (versionShown o).toNat + (helpShown o).toNat + (commandDispatched o).toNat +
    (unresolved127 o).toNat + (leadingFlagError o).toNat

/-- Stated from the spec's words (for comparison with the source's
`reVerifyMatch`): the match `k` "ends exactly at a segment boundary in the
candidate `s`", i.e. `k` is a prefix of `s` immediately followed by a
space or by end-of-string. -/
def specBoundaryAligned (k s : Str) : Bool :=
  k.isPrefixOf s && (s.length == k.length || (s.drop k.length).head? == some spaceChar)

/-- The nested search either found no longest-prefix match or the found
match fails the verification regex (so `processArgs` keeps the bare first
token as the subcommand). -/
def nestedMatchRejected (t : Tree) (s : Str) : Bool :=
  match longestPrefixMatch t s with
  | none => true
  | some kf => !reVerifyMatch kf.1 s

/-- A test command that returns a fixed exit code. -/
def cmdRet (n : Int) : Command := { help := [], synopsis := [], runFn := fun _ => n }

/-- A factory for `cmdRet`. -/
def okRet (n : Int) : CommandFactory := Except.ok (cmdRet n)

/-- A test command that always requests its own help via the sentinel. -/
def cmdHelpReq : Command :=
  { help := [], synopsis := [], runFn := fun _ => RunResultHelp }

/-- C1 counterexample registry: a nested registry with keys `a` and
`a b`. -/
def c1Cmds : List (Str × CommandFactory) := [(str "a", okRet 11), (str "a b", okRet 22)]

/-- C1 counterexample argument vector. -/
def c1Args : List Str := [str "ab", str "a"]

/-- The §8 prefix-ambiguity registry `{"foo": F1, "foo bar": F2}`. -/
def fooCmds : List (Str × CommandFactory) :=
  [(str "foo", okRet 11), (str "foo bar", okRet 22)]

/-- C1 witness registry: nested, with no key matching the probe token. -/
def c1wCmds : List (Str × CommandFactory) := [(str "x", okRet 1), (str "x y", okRet 2)]

/-- A registry whose single factory fails to construct. -/
def c2Cmds : List (Str × CommandFactory) := [(str "foo", Except.error ())]

/-- A flat one-command registry. -/
def c3Cmds : List (Str × CommandFactory) := [(str "foo", okRet 7)]

/-- A nested registry registering only a depth-three leaf. -/
def c4Cmds : List (Str × CommandFactory) := [(str "foo bar baz", okRet 3)]

/-- A registry with a default (empty-path) command. -/
def c5Cmds : List (Str × CommandFactory) := [(([] : Str), okRet 5)]

/-- A registry whose command always requests help via the sentinel. -/
def c6Cmds : List (Str × CommandFactory) := [(str "foo", Except.ok cmdHelpReq)]

/-- A nested registry used to reach the space-token abort. -/
def c8Cmds : List (Str × CommandFactory) := [(str "x y", okRet 4)]

/-- A registry with a key registered with surrounding spaces. -/
def c10Cmds : List (Str × CommandFactory) := [(str " foo ", okRet 3)]

theorem cutLast_length : ∀ {k p : Str}, cutLast k = some p → p.length < k.length := by
  intro k
  induction k with
  | nil => intro p h; simp [cutLast] at h
  | cons c rest ih =>
    intro p h
    simp only [cutLast] at h
    cases hrest : cutLast rest with
    | some q =>
      rw [hrest] at h
      cases h
      have := ih hrest
      simpa using Nat.succ_lt_succ this
    | none =>
      rw [hrest] at h
      by_cases hc : c = spaceChar
      · simp [hc] at h
        cases h
        simp
      · simp [hc] at h

theorem missingAncestorsAux_congr (t : Tree) :
    ∀ fuel₁ fuel₂ k, k.length ≤ fuel₁ → k.length ≤ fuel₂ →
      missingAncestorsAux t fuel₁ k = missingAncestorsAux t fuel₂ k := by
  intro fuel₁
  induction fuel₁ with
  | zero =>
    intro fuel₂ k h1 _
    have hk : k = [] := List.length_eq_zero.mp (Nat.le_zero.mp h1)
    subst hk
    cases fuel₂ <;> simp [missingAncestorsAux, cutLast]
  | succ f1 ih =>
    intro fuel₂ k h1 h2
    cases fuel₂ with
    | zero =>
      have hk : k = [] := List.length_eq_zero.mp (Nat.le_zero.mp h2)
      subst hk
      simp [missingAncestorsAux, cutLast]
    | succ f2 =>
      simp only [missingAncestorsAux]
      cases hcut : cutLast k with
      | none => rfl
      | some p =>
        have hlt := cutLast_length hcut
        have hp1 : p.length ≤ f1 := Nat.lt_succ_iff.mp (Nat.lt_of_lt_of_le hlt h1)
        have hp2 : p.length ≤ f2 := Nat.lt_succ_iff.mp (Nat.lt_of_lt_of_le hlt h2)
        by_cases hg : (treeGet t p).isSome
        · simp [hg]
        · simp [hg, ih f2 p hp1 hp2]

/-- The natural unfolding of `missingAncestors`. -/
theorem missingAncestors_eq (t : Tree) (k : Str) :
    missingAncestors t k =
      match cutLast k with
      | none => []
      | some p =>
        if (treeGet t p).isSome then [] else p :: missingAncestors t p := by
  cases hk : k.length with
  | zero =>
    have : k = [] := List.length_eq_zero.mp hk
    subst this
    simp [missingAncestors, missingAncestorsAux, cutLast]
  | succ m =>
    unfold missingAncestors
    rw [hk]
    simp only [missingAncestorsAux]
    cases hcut : cutLast k with
    | none => rfl
    | some p =>
      have hlt := cutLast_length hcut
      rw [hk] at hlt
      have hp : p.length ≤ m := Nat.lt_succ_iff.mp hlt
      by_cases hg : (treeGet t p).isSome
      · simp [hg]
      · simp [hg]
        exact missingAncestorsAux_congr t m p.length p hp le_rfl

theorem treeGet_isSome_iff {t : Tree} {k : Str} :
    (treeGet t k).isSome = true ↔ k ∈ treeKeys t := by
  unfold treeGet treeKeys
  have hmap : ∀ o : Option (Str × CommandFactory),
      (Option.map Prod.snd o).isSome = o.isSome := by
    intro o; cases o <;> rfl
  rw [hmap]
  rw [List.find?_isSome]
  constructor
  · rintro ⟨p, hp, hpk⟩
    exact List.mem_map.mpr ⟨p, hp, by simpa using hpk⟩
  · intro h
    rcases List.mem_map.mp h with ⟨p, hp, hpk⟩
    exact ⟨p, hp, by simpa using hpk⟩

theorem mem_keys_treeInsert {t : Tree} {k k' : Str} {v : CommandFactory} :
    k' ∈ treeKeys (treeInsert t k v) ↔ k' = k ∨ k' ∈ treeKeys t := by
  unfold treeInsert
  by_cases hmem : t.any (fun p => p.1 == k)
  · have hk : k ∈ treeKeys t := by
      rcases List.any_eq_true.mp hmem with ⟨p, hp, hpk⟩
      exact List.mem_map.mpr ⟨p, hp, by simpa using hpk⟩
    rw [if_pos hmem]
    have hkeys : treeKeys (t.map (fun p => if p.1 == k then (k, v) else p)) = treeKeys t := by
      unfold treeKeys
      rw [List.map_map]
      apply List.map_congr_left
      intro p _
      by_cases hpk : p.1 = k
      · simp [hpk]
      · simp [hpk]
    rw [hkeys]
    constructor
    · exact Or.inr
    · rintro (rfl | h)
      · exact hk
      · exact h
  · rw [if_neg hmem]
    unfold treeKeys
    rw [List.map_append]
    simp [or_comm]

theorem mem_keys_foldl_treeInsert {α : Type} (f : α → Str) (g : α → CommandFactory) :
    ∀ (l : List α) (t0 : Tree) (k : Str),
      k ∈ treeKeys (l.foldl (fun t p => treeInsert t (f p) (g p)) t0) ↔
        (∃ p ∈ l, f p = k) ∨ k ∈ treeKeys t0 := by
  intro l
  induction l with
  | nil => intro t0 k; simp
  | cons a l ih =>
    intro t0 k
    rw [List.foldl_cons, ih]
    rw [mem_keys_treeInsert]
    constructor
    · rintro (⟨p, hp, hfp⟩ | rfl | h)
      · exact Or.inl ⟨p, List.mem_cons_of_mem a hp, hfp⟩
      · exact Or.inl ⟨a, List.mem_cons_self a l, rfl⟩
      · exact Or.inr h
    · rintro (⟨p, hp, hfp⟩ | h)
      · rcases List.mem_cons.mp hp with rfl | hp'
        · exact Or.inr (Or.inl hfp.symm)
        · exact Or.inl ⟨p, hp', hfp⟩
      · exact Or.inr (Or.inr h)

theorem mem_keys_buildTree0 {cmds : List (Str × CommandFactory)} {k : Str} :
    k ∈ treeKeys (buildTree0 cmds) ↔ ∃ p ∈ cmds, trimSpace p.1 = k := by
  unfold buildTree0
  rw [mem_keys_foldl_treeInsert (fun p => trimSpace p.1) Prod.snd cmds [] k]
  simp [treeKeys]

theorem mem_snd_treeInsert {t : Tree} {k : Str} {v : CommandFactory}
    {q : Str × CommandFactory} (hq : q ∈ treeInsert t k v) :
    q.2 = v ∨ q ∈ t := by
  unfold treeInsert at hq
  by_cases hmem : t.any (fun p => p.1 == k)
  · rw [if_pos hmem] at hq
    rcases List.mem_map.mp hq with ⟨p, hp, hpq⟩
    by_cases hpk : p.1 = k
    · rw [if_pos (by simpa using hpk)] at hpq
      exact Or.inl (by rw [← hpq])
    · rw [if_neg (by simpa using hpk)] at hpq
      exact Or.inr (hpq ▸ hp)
  · rw [if_neg hmem] at hq
    rcases List.mem_append.mp hq with h | h
    · exact Or.inr h
    · rcases List.mem_singleton.mp h with rfl
      exact Or.inl rfl

theorem mem_foldl_treeInsert {α : Type} (f : α → Str) (g : α → CommandFactory) :
    ∀ (l : List α) (t0 : Tree) (q : Str × CommandFactory),
      q ∈ l.foldl (fun t p => treeInsert t (f p) (g p)) t0 →
        q ∈ t0 ∨ ∃ p ∈ l, q.2 = g p := by
  intro l
  induction l with
  | nil => intro t0 q hq; exact Or.inl hq
  | cons a l ih =>
    intro t0 q hq
    rw [List.foldl_cons] at hq
    rcases ih (treeInsert t0 (f a) (g a)) q hq with h | ⟨p, hp, hqp⟩
    · rcases mem_snd_treeInsert h with h2 | h2
      · exact Or.inr ⟨a, List.mem_cons_self a l, h2⟩
      · exact Or.inl h2
    · exact Or.inr ⟨p, List.mem_cons_of_mem a hp, hqp⟩

theorem treeGet_mem {t : Tree} {k : Str} {fac : CommandFactory}
    (h : treeGet t k = some fac) : ∃ k', (k', fac) ∈ t := by
  unfold treeGet at h
  cases hf : t.find? (fun p => p.1 == k) with
  | none => rw [hf] at h; simp at h
  | some pr =>
    rw [hf] at h
    simp at h
    exact ⟨pr.1, by rw [← h] at *; exact List.mem_of_find?_eq_some hf⟩

theorem treeGet_buildTree_ok {cmds : List (Str × CommandFactory)} {k : Str}
    {fac : CommandFactory} (hok : factoriesOk cmds = true)
    (h : treeGet (buildTree cmds) k = some fac) : fac.isOk = true := by
  rcases treeGet_mem h with ⟨k', hmem⟩
  have hin0 : ∀ q : Str × CommandFactory, q ∈ buildTree0 cmds → q.2.isOk = true := by
    intro q hq
    unfold buildTree0 at hq
    rcases mem_foldl_treeInsert (fun p => trimSpace p.1) (fun p => p.2) cmds [] q hq with
      h0 | ⟨p, hp, hqp⟩
    · simp at h0
    · rw [hqp]
      exact List.all_eq_true.mp hok p hp
  unfold buildTree at hmem
  by_cases hn : commandNested cmds
  · simp only [hn, if_true] at hmem
    rcases mem_foldl_treeInsert (fun k => k) (fun _ => placeholderFactory) _ _ _ hmem with
      h0 | ⟨_, _, hqp⟩
    · exact hin0 _ h0
    · have hfac : fac = placeholderFactory := hqp
      rw [hfac]; rfl
  · simp only [hn, if_false] at hmem
    exact hin0 _ hmem

theorem longestPrefixMatch_mem {t : Tree} {s : Str} {kf : Str × CommandFactory}
    (h : longestPrefixMatch t s = some kf) : kf ∈ t := by
  unfold longestPrefixMatch at h
  have main : ∀ (l : List (Str × CommandFactory)) (acc : Option (Str × CommandFactory)),
      l.foldl (fun acc p =>
        match acc with
        | none => some p
        | some q => if q.1.length < p.1.length then some p else some q) acc = some kf →
      acc = some kf ∨ kf ∈ l := by
    intro l
    induction l with
    | nil => intro acc h0; exact Or.inl h0
    | cons p l ih =>
      intro acc h0
      rw [List.foldl_cons] at h0
      rcases ih _ h0 with hstep | hmem
      · cases acc with
        | none =>
          simp at hstep
          exact Or.inr (by rw [← hstep]; exact List.mem_cons_self p l)
        | some q =>
          by_cases hlen : q.1.length < p.1.length
          · simp [hlen] at hstep
            exact Or.inr (by rw [← hstep]; exact List.mem_cons_self p l)
          · simp [hlen] at hstep
            exact Or.inl (by rw [hstep])
      · exact Or.inr (List.mem_cons_of_mem p hmem)
  rcases main _ _ h with h0 | hmem
  · simp at h0
  · exact (List.mem_filter.mp hmem).1

theorem scan_sub_ne (nested : Bool) (t : Tree) :
    ∀ (args : List Str) (st : ScanState), st.subcommand ≠ [] →
      (scanLoop nested t args st).1.subcommand = st.subcommand ∧
      (scanLoop nested t args st).1.subcommandArgs = st.subcommandArgs ∧
      (scanLoop nested t args st).1.topFlags = st.topFlags ∧
      (scanLoop nested t args st).1.isVersion = st.isVersion ∧
      (scanLoop nested t args st).2 = false := by
  intro args
  induction args with
  | nil => intro st h; simp [scanLoop]
  | cons arg rest ih =>
    intro st h
    have hsub : (st.subcommand == []) = false := beq_eq_false_iff_ne.mpr h
    simp only [scanLoop]
    by_cases h1 : (arg == str "--") = true
    · simp [h1]
    · rw [Bool.not_eq_true] at h1
      rw [h1]
      simp only [Bool.false_eq_true, if_false]
      by_cases h2 : isHelpTok arg = true
      · rw [h2]
        simp only [if_true]
        exact ih { st with isHelp := true } h
      · rw [Bool.not_eq_true] at h2
        rw [h2]
        simp only [Bool.false_eq_true, if_false, hsub]
        exact ih st h

theorem scan_isHelp_mono (nested : Bool) (t : Tree) :
    ∀ (args : List Str) (st : ScanState), st.isHelp = true →
      (scanLoop nested t args st).1.isHelp = true := by
  intro args
  induction args with
  | nil => intro st h; simpa [scanLoop] using h
  | cons arg rest ih =>
    intro st h
    simp only [scanLoop]
    by_cases h1 : (arg == str "--") = true
    · simpa [h1] using h
    · rw [Bool.not_eq_true] at h1
      rw [h1]
      simp only [Bool.false_eq_true, if_false]
      by_cases h2 : isHelpTok arg = true
      · rw [h2]; simp only [if_true]
        exact ih { st with isHelp := true } rfl
      · rw [Bool.not_eq_true] at h2
        rw [h2]
        simp only [Bool.false_eq_true, if_false]
        by_cases h3 : (st.subcommand == []) = true
        · rw [h3]; simp only [if_true]
          by_cases h4 : isVersionTok arg = true
          · rw [h4]; simp only [if_true]
            exact ih _ h
          · rw [Bool.not_eq_true] at h4
            rw [h4]
            simp only [Bool.false_eq_true, if_false]
            by_cases h5 : (!(arg == []) && arg.head? == some '-') = true
            · rw [h5]; simp only [if_true]
              exact ih _ h
            · rw [Bool.not_eq_true] at h5
              rw [h5]
              simp only [Bool.false_eq_true, if_false]
              by_cases h6 : (!(arg == [])) = true
              · rw [h6]; simp only [if_true]
                cases nested with
                | false =>
                  simp only [Bool.false_eq_true, if_false]
                  exact ih _ h
                | true =>
                  simp only [if_true]
                  by_cases h7 : containsSpace arg = true
                  · rw [h7]; simp only [if_true]
                    exact h
                  · rw [Bool.not_eq_true] at h7
                    rw [h7]
                    simp only [Bool.false_eq_true, if_false]
                    exact ih _ h
              · rw [Bool.not_eq_true] at h6
                rw [h6]
                simp only [Bool.false_eq_true, if_false]
                exact ih _ h
        · rw [Bool.not_eq_true] at h3
          rw [h3]
          simp only [Bool.false_eq_true, if_false]
          exact ih _ h

theorem scan_subArgs_suffix (nested : Bool) (t : Tree) (args0 : List Str) :
    ∀ (args : List Str) (st : ScanState),
      st.subcommandArgs <:+ args0 → args <:+ args0 →
      (scanLoop nested t args st).1.subcommandArgs <:+ args0 := by
  intro args
  induction args with
  | nil => intro st h _; simpa [scanLoop] using h
  | cons arg rest ih =>
    intro st h hargs
    have hrest : rest <:+ args0 := (List.suffix_cons arg rest).trans hargs
    simp only [scanLoop]
    split_ifs with h1 h2 h3 h4 h5 h6 h7 h8
    · exact h
    · exact ih _ h hrest
    · exact ih _ h hrest
    · exact ih _ h hrest
    · exact h
    · exact ih _ ((List.drop_suffix _ _).trans hrest) hrest
    · exact ih _ hrest hrest
    · exact ih _ h hrest
    · exact ih _ h hrest

theorem scan_sub_inv (nested : Bool) (t : Tree) (args0 : List Str) :
    ∀ (args : List Str) (st : ScanState),
      (st.subcommand = [] ∨ st.subcommand ∈ treeKeys t ∨ st.subcommand ∈ args0) →
      (∀ a ∈ args, a ∈ args0) →
      ((scanLoop nested t args st).1.subcommand = [] ∨
       (scanLoop nested t args st).1.subcommand ∈ treeKeys t ∨
       (scanLoop nested t args st).1.subcommand ∈ args0) := by
  intro args
  induction args with
  | nil => intro st h _; simpa [scanLoop] using h
  | cons arg rest ih =>
    intro st h hargs
    have hargrest : ∀ a ∈ rest, a ∈ args0 := fun a ha =>
      hargs a (List.mem_cons_of_mem arg ha)
    have harg : arg ∈ args0 := hargs arg (List.mem_cons_self arg rest)
    simp only [scanLoop]
    split_ifs with h1 h2 h3 h4 h5 h6 h7 h8
    · exact h
    · exact ih _ h hargrest
    · exact ih _ h hargrest
    · exact ih _ h hargrest
    · exact Or.inl rfl
    · -- nested command branch: the new subcommand is either a matched
      -- registered key or the token itself
      apply ih _ _ hargrest
      unfold nestedStep
      cases hlp : longestPrefixMatch t (searchKeyOf arg rest) with
      | none => simp only [hlp]; exact Or.inr (Or.inr harg)
      | some kf =>
        simp only [hlp]
        by_cases hv : reVerifyMatch kf.1 (searchKeyOf arg rest) = true
        · simp only [hv, if_true]
          exact Or.inr (Or.inl (List.mem_map.mpr ⟨kf, longestPrefixMatch_mem hlp, rfl⟩))
        · rw [Bool.not_eq_true] at hv
          simp only [hv, Bool.false_eq_true, if_false]
          exact Or.inr (Or.inr harg)
    · exact ih _ (Or.inr (Or.inr harg)) hargrest
    · exact ih _ h hargrest
    · exact ih _ h hargrest

theorem scan_subArgs_indep (nested : Bool) (t : Tree) :
    ∀ (args : List Str) (st : ScanState) (sa : List Str),
      (scanLoop nested t args { st with subcommandArgs := sa }).1.isHelp =
        (scanLoop nested t args st).1.isHelp ∧
      (scanLoop nested t args { st with subcommandArgs := sa }).1.isVersion =
        (scanLoop nested t args st).1.isVersion ∧
      (scanLoop nested t args { st with subcommandArgs := sa }).2 =
        (scanLoop nested t args st).2 := by
  intro args
  induction args with
  | nil => intro st sa; exact ⟨rfl, rfl, rfl⟩
  | cons arg rest ih =>
    intro st sa
    rcases st with ⟨sih, siv, ssc, ssa, stf⟩
    simp only [scanLoop]
    split_ifs with h1 h2 h3 h4 h5 h6 h7
    · exact ⟨rfl, rfl, rfl⟩
    · exact ih ⟨true, siv, ssc, ssa, stf⟩ sa
    · exact ih ⟨sih, true, ssc, ssa, stf⟩ sa
    · exact ih ⟨sih, siv, ssc, ssa, stf ++ [arg]⟩ sa
    · exact ⟨rfl, rfl, rfl⟩
    · exact ⟨rfl, rfl, rfl⟩
    · exact ⟨rfl, rfl, rfl⟩
    · exact ih ⟨sih, siv, ssc, ssa, stf⟩ sa
    · exact ih ⟨sih, siv, ssc, ssa, stf⟩ sa

theorem takeWhile_append_stop {α : Type} (p : α → Bool) {bad : α}
    (hb : p bad = false) :
    ∀ (xs : List α) (ys : List α), (xs ++ bad :: ys).takeWhile p = xs.takeWhile p := by
  intro xs ys
  induction xs with
  | nil => simp [List.takeWhile_cons, hb]
  | cons x xs ihx =>
    rw [List.cons_append, List.takeWhile_cons, List.takeWhile_cons]
    cases hx : p x
    · rfl
    · rw [ihx]

theorem takeWhile_length_le {α : Type} (p : α → Bool) :
    ∀ l : List α, (l.takeWhile p).length ≤ l.length := by
  intro l
  induction l with
  | nil => simp
  | cons x xs ihx =>
    rw [List.takeWhile_cons]
    cases hx : p x
    · simp
    · simpa using Nat.succ_le_succ ihx

/-- Tokens at or beyond a token on which the extension loop breaks never
influence the search key of the nested command step. -/
theorem searchKeyOf_stop {arg bad : Str} (hb : validTok bad = false)
    (pre post post' : List Str) :
    searchKeyOf arg (pre ++ bad :: post) = searchKeyOf arg (pre ++ bad :: post') := by
  unfold searchKeyOf
  have h1 : (arg :: (pre ++ bad :: post)).takeWhile validTok =
      (arg :: pre).takeWhile validTok := by
    rw [show arg :: (pre ++ bad :: post) = (arg :: pre) ++ bad :: post from rfl]
    exact takeWhile_append_stop validTok hb (arg :: pre) post
  have h2 : (arg :: (pre ++ bad :: post')).takeWhile validTok =
      (arg :: pre).takeWhile validTok := by
    rw [show arg :: (pre ++ bad :: post') = (arg :: pre) ++ bad :: post' from rfl]
    exact takeWhile_append_stop validTok hb (arg :: pre) post'
  have hlen : ((arg :: pre).takeWhile validTok).length ≤ (arg :: pre).length :=
    takeWhile_length_le _ _
  have h3 : (arg :: (pre ++ bad :: post)).take ((arg :: pre).takeWhile validTok).length =
      (arg :: (pre ++ bad :: post')).take ((arg :: pre).takeWhile validTok).length := by
    rw [show arg :: (pre ++ bad :: post) = (arg :: pre) ++ bad :: post from rfl]
    rw [show arg :: (pre ++ bad :: post') = (arg :: pre) ++ bad :: post' from rfl]
    rw [List.take_append_of_le_length hlen, List.take_append_of_le_length hlen]
  rw [h1, h2, h3]

theorem nestedStep_stop {t : Tree} {arg bad : Str} (hb : validTok bad = false)
    (pre post post' : List Str) :
    nestedStep t arg (pre ++ bad :: post) = nestedStep t arg (pre ++ bad :: post') := by
  unfold nestedStep
  rw [searchKeyOf_stop hb pre post post']

theorem scan_stop_at_ddash (nested : Bool) (t : Tree) (post : List Str) :
    ∀ (pre : List Str) (st : ScanState), str "--" ∉ pre →
      ((scanLoop nested t (pre ++ str "--" :: post) st).1.isHelp =
        (scanLoop nested t (pre ++ [str "--"]) st).1.isHelp) ∧
      ((scanLoop nested t (pre ++ str "--" :: post) st).1.isVersion =
        (scanLoop nested t (pre ++ [str "--"]) st).1.isVersion) ∧
      ((scanLoop nested t (pre ++ str "--" :: post) st).2 =
        (scanLoop nested t (pre ++ [str "--"]) st).2) := by
  intro pre
  induction pre with
  | nil =>
    intro st _
    simp [scanLoop]
  | cons a pre ihp =>
    intro st h
    have ha : (a == str "--") = false :=
      beq_eq_false_iff_ne.mpr (fun e => h (e ▸ List.mem_cons_self a pre))
    have hpre : str "--" ∉ pre := fun e => h (List.mem_cons_of_mem a e)
    have combo : ∀ (sih siv : Bool) (X : Str) (Y1 Y2 : List Str) (stf : List Str),
        ((scanLoop nested t (pre ++ str "--" :: post) ⟨sih, siv, X, Y1, stf⟩).1.isHelp =
          (scanLoop nested t (pre ++ [str "--"]) ⟨sih, siv, X, Y2, stf⟩).1.isHelp) ∧
        ((scanLoop nested t (pre ++ str "--" :: post) ⟨sih, siv, X, Y1, stf⟩).1.isVersion =
          (scanLoop nested t (pre ++ [str "--"]) ⟨sih, siv, X, Y2, stf⟩).1.isVersion) ∧
        ((scanLoop nested t (pre ++ str "--" :: post) ⟨sih, siv, X, Y1, stf⟩).2 =
          (scanLoop nested t (pre ++ [str "--"]) ⟨sih, siv, X, Y2, stf⟩).2) := by
      intro sih siv X Y1 Y2 stf
      have i1 := scan_subArgs_indep nested t (pre ++ str "--" :: post)
        ⟨sih, siv, X, Y2, stf⟩ Y1
      have i2 := ihp ⟨sih, siv, X, Y2, stf⟩ hpre
      exact ⟨i1.1.symm ▸ i2.1, i1.2.1.symm ▸ i2.2.1, i1.2.2.symm ▸ i2.2.2⟩
    rcases st with ⟨sih, siv, ssc, ssa, stf⟩
    rw [List.cons_append, List.cons_append]
    simp only [scanLoop, ha, Bool.false_eq_true, if_false]
    split_ifs with h2 h3 h4 h5 h6 h7 h8
    · exact ihp ⟨true, siv, ssc, ssa, stf⟩ hpre
    · exact ihp ⟨sih, true, ssc, ssa, stf⟩ hpre
    · exact ihp ⟨sih, siv, ssc, ssa, stf ++ [a]⟩ hpre
    · exact ⟨rfl, rfl, rfl⟩
    · -- nested command branch
      have hdd : validTok (str "--") = false := by decide
      have hstep : nestedStep t a (pre ++ str "--" :: post) =
          nestedStep t a (pre ++ [str "--"]) := by
        have := @nestedStep_stop t a (str "--") hdd pre post []
        simpa using this
      rw [hstep]
      exact combo sih siv (nestedStep t a (pre ++ [str "--"])).1 _ _ stf
    · -- flat command branch
      exact combo sih siv a _ _ stf
    · exact ihp ⟨sih, siv, ssc, ssa, stf⟩ hpre
    · exact ihp ⟨sih, siv, ssc, ssa, stf⟩ hpre

theorem isHelpTok_cases {a : Str} (h : isHelpTok a = true) :
    a = str "-h" ∨ a = str "-help" ∨ a = str "--help" := by
  unfold isHelpTok at h
  simp at h
  tauto

theorem isHelpTok_ne_ddash {a : Str} (h : isHelpTok a = true) :
    (a == str "--") = false := by
  rcases isHelpTok_cases h with rfl | rfl | rfl <;> decide

theorem scan_help_sets (nested : Bool) (t : Tree) (post : List Str) (tok : Str)
    (htok : isHelpTok tok = true) :
    ∀ (pre : List Str) (st : ScanState), str "--" ∉ pre →
      (scanLoop nested t (pre ++ tok :: post) st).2 = false →
      (scanLoop nested t (pre ++ tok :: post) st).1.isHelp = true := by
  intro pre
  induction pre with
  | nil =>
    intro st _ _
    rw [List.nil_append]
    simp only [scanLoop, isHelpTok_ne_ddash htok, Bool.false_eq_true, if_false,
      htok, if_true]
    exact scan_isHelp_mono nested t post _ rfl
  | cons a pre ihp =>
    intro st h hne
    have ha : (a == str "--") = false :=
      beq_eq_false_iff_ne.mpr (fun e => h (e ▸ List.mem_cons_self a pre))
    have hpre : str "--" ∉ pre := fun e => h (List.mem_cons_of_mem a e)
    rw [List.cons_append] at hne ⊢
    simp only [scanLoop, ha, Bool.false_eq_true, if_false] at hne ⊢
    split_ifs at hne ⊢ with h2 h3 h4 h5 h6 h7 h8 <;>
      exact ihp _ hpre hne

theorem processArgs_isHelp (cmds : List (Str × CommandFactory)) (args : List Str) :
    (processArgs cmds args).isHelp = (scanOf cmds args).1.isHelp := by
  unfold processArgs
  rcases hs : scanOf cmds args with ⟨st, early⟩
  cases early
  · simp only [Bool.false_eq_true, if_false]
    split_ifs <;> rfl
  · rfl

theorem processArgs_isVersion (cmds : List (Str × CommandFactory)) (args : List Str) :
    (processArgs cmds args).isVersion = (scanOf cmds args).1.isVersion := by
  unfold processArgs
  rcases hs : scanOf cmds args with ⟨st, early⟩
  cases early
  · simp only [Bool.false_eq_true, if_false]
    split_ifs <;> rfl
  · rfl

theorem processArgs_sub_eq (cmds : List (Str × CommandFactory)) (args : List Str) :
    (processArgs cmds args).subcommand = (scanOf cmds args).1.subcommand := by
  unfold processArgs
  rcases hs : scanOf cmds args with ⟨st, early⟩
  cases early <;>
    first
      | rfl
      | (simp only [Bool.false_eq_true, if_false]
         first
           | rfl
           | (split_ifs <;> rfl))

theorem processArgs_of_sub_ne (cmds : List (Str × CommandFactory)) (args : List Str)
    (h : (scanOf cmds args).1.subcommand ≠ []) :
    processArgs cmds args = (scanOf cmds args).1 := by
  unfold processArgs
  rcases hs : scanOf cmds args with ⟨st, early⟩
  have hst : st.subcommand ≠ [] := by rw [hs] at h; exact h
  have hbe : (st.subcommand == []) = false := beq_eq_false_iff_ne.mpr hst
  cases early
  · simp [hbe]
  · rfl

theorem ancestorChainAux_congr :
    ∀ fuel₁ fuel₂ k, k.length ≤ fuel₁ → k.length ≤ fuel₂ →
      ancestorChainAux fuel₁ k = ancestorChainAux fuel₂ k := by
  intro fuel₁
  induction fuel₁ with
  | zero =>
    intro fuel₂ k h1 _
    have hk : k = [] := List.length_eq_zero.mp (Nat.le_zero.mp h1)
    subst hk
    cases fuel₂ <;> simp [ancestorChainAux, cutLast]
  | succ f1 ih =>
    intro fuel₂ k h1 h2
    cases fuel₂ with
    | zero =>
      have hk : k = [] := List.length_eq_zero.mp (Nat.le_zero.mp h2)
      subst hk
      simp [ancestorChainAux, cutLast]
    | succ f2 =>
      simp only [ancestorChainAux]
      cases hcut : cutLast k with
      | none => rfl
      | some p =>
        have hlt := cutLast_length hcut
        have hp1 : p.length ≤ f1 := Nat.lt_succ_iff.mp (Nat.lt_of_lt_of_le hlt h1)
        have hp2 : p.length ≤ f2 := Nat.lt_succ_iff.mp (Nat.lt_of_lt_of_le hlt h2)
        simp [ih f2 p hp1 hp2]

/-- The natural unfolding of `ancestorChain`. -/
theorem ancestorChain_eq (k : Str) :
    ancestorChain k =
      match cutLast k with
      | none => []
      | some p => p :: ancestorChain p := by
  cases hk : k.length with
  | zero =>
    have : k = [] := List.length_eq_zero.mp hk
    subst this
    simp [ancestorChain, ancestorChainAux, cutLast]
  | succ m =>
    unfold ancestorChain
    rw [hk]
    simp only [ancestorChainAux]
    cases hcut : cutLast k with
    | none => rfl
    | some p =>
      have hlt := cutLast_length hcut
      rw [hk] at hlt
      have hp : p.length ≤ m := Nat.lt_succ_iff.mp hlt
      simp [ancestorChainAux_congr m p.length p hp le_rfl]

/-- Within one missing-ancestor chain, the parent of every collected path
is either already registered or collected in the same chain. -/
theorem missingAncestors_none (t : Tree) {k : Str} (h : cutLast k = none) :
    missingAncestors t k = [] := by
  rw [missingAncestors_eq, h]

theorem missingAncestors_present (t : Tree) {k p : Str} (h : cutLast k = some p)
    (hg : (treeGet t p).isSome = true) : missingAncestors t k = [] := by
  rw [missingAncestors_eq, h]
  simp [hg]

theorem missingAncestors_missing (t : Tree) {k p : Str} (h : cutLast k = some p)
    (hg : (treeGet t p).isSome = false) :
    missingAncestors t k = p :: missingAncestors t p := by
  rw [missingAncestors_eq, h]
  simp [hg]

theorem ancestorChain_none {k : Str} (h : cutLast k = none) :
    ancestorChain k = [] := by
  rw [ancestorChain_eq, h]

theorem ancestorChain_some {k p : Str} (h : cutLast k = some p) :
    ancestorChain k = p :: ancestorChain p := by
  rw [ancestorChain_eq, h]

/-- Within one missing-ancestor chain, the parent of every collected path
is either already registered or collected in the same chain. -/
theorem missingAncestors_closed (t : Tree) :
    ∀ (n : Nat) (k : Str), k.length ≤ n → ∀ a p,
      a ∈ missingAncestors t k → cutLast a = some p →
      (treeGet t p).isSome = true ∨ p ∈ missingAncestors t k := by
  intro n
  induction n with
  | zero =>
    intro k hk a p ha _
    have : k = [] := List.length_eq_zero.mp (Nat.le_zero.mp hk)
    subst this
    rw [missingAncestors_none t (by rw [cutLast])] at ha
    simp at ha
  | succ m ih =>
    intro k hk a p ha hcut
    cases hck : cutLast k with
    | none =>
      rw [missingAncestors_none t hck] at ha
      simp at ha
    | some q =>
      cases hgq : (treeGet t q).isSome with
      | true =>
        rw [missingAncestors_present t hck hgq] at ha
        simp at ha
      | false =>
        rw [missingAncestors_missing t hck hgq] at ha
        rw [missingAncestors_missing t hck hgq]
        have hqlen : q.length ≤ m :=
          Nat.lt_succ_iff.mp (Nat.lt_of_lt_of_le (cutLast_length hck) hk)
        rcases List.mem_cons.mp ha with rfl | hatail
        · -- a = q: inspect the parent of q itself
          cases hgp : (treeGet t p).isSome with
          | true => exact Or.inl rfl
          | false =>
            refine Or.inr (List.mem_cons_of_mem a ?_)
            rw [missingAncestors_missing t hcut hgp]
            exact List.mem_cons_self p _
        · rcases ih q hqlen a p hatail hcut with hL | hR
          · exact Or.inl hL
          · exact Or.inr (List.mem_cons_of_mem q hR)

/-- After registry construction with a nested registry, the parent of any
registered key is registered. -/
theorem buildTree_parent_mem {cmds : List (Str × CommandFactory)}
    (hn : commandNested cmds = true) :
    ∀ k p, k ∈ treeKeys (buildTree cmds) → cutLast k = some p →
      p ∈ treeKeys (buildTree cmds) := by
  intro k p hk hcut
  have hbt : buildTree cmds =
      ((treeKeys (buildTree0 cmds)).flatMap (missingAncestors (buildTree0 cmds))).foldl
        (fun t k => treeInsert t k placeholderFactory) (buildTree0 cmds) := by
    unfold buildTree
    rw [hn]
    rfl
  rw [hbt] at hk ⊢
  rw [mem_keys_foldl_treeInsert (fun k => k) (fun _ => placeholderFactory)] at hk ⊢
  have keyOrIns : ∀ a : Str,
      ((treeGet (buildTree0 cmds) a).isSome = true ∨
        a ∈ (treeKeys (buildTree0 cmds)).flatMap (missingAncestors (buildTree0 cmds))) →
      ((∃ q ∈ (treeKeys (buildTree0 cmds)).flatMap (missingAncestors (buildTree0 cmds)),
          (fun k => k) q = a) ∨ a ∈ treeKeys (buildTree0 cmds)) := by
    intro a hcase
    rcases hcase with hs | hins
    · exact Or.inr (treeGet_isSome_iff.mp hs)
    · exact Or.inl ⟨a, hins, rfl⟩
  rcases hk with ⟨q, hq, hqk⟩ | hk0
  · -- k came from the placeholder pass
    have hqk2 : q = k := hqk
    subst hqk2
    rcases List.mem_flatMap.mp hq with ⟨k0, hk0mem, hqin⟩
    rcases missingAncestors_closed (buildTree0 cmds) k0.length k0 le_rfl q p hqin hcut with
      hs | hr
    · exact keyOrIns p (Or.inl hs)
    · exact keyOrIns p (Or.inr (List.mem_flatMap.mpr ⟨k0, hk0mem, hr⟩))
  · -- k is an originally registered (trimmed) key
    apply keyOrIns p
    cases hgp : (treeGet (buildTree0 cmds) p).isSome with
    | true => exact Or.inl rfl
    | false =>
      refine Or.inr (List.mem_flatMap.mpr ⟨k, hk0, ?_⟩)
      rw [missingAncestors_missing _ hcut hgp]
      exact List.mem_cons_self p _

/-- All ancestors of a registered key are registered (nested registry). -/
theorem buildTree_ancestors_mem {cmds : List (Str × CommandFactory)}
    (hn : commandNested cmds = true) :
    ∀ (n : Nat) (k : Str), k.length ≤ n → k ∈ treeKeys (buildTree cmds) →
      ∀ a ∈ ancestorChain k, a ∈ treeKeys (buildTree cmds) := by
  intro n
  induction n with
  | zero =>
    intro k hk _ a ha
    have : k = [] := List.length_eq_zero.mp (Nat.le_zero.mp hk)
    subst this
    rw [ancestorChain_none (by rw [cutLast])] at ha
    simp at ha
  | succ m ih =>
    intro k hk hmem a ha
    cases hck : cutLast k with
    | none =>
      rw [ancestorChain_none hck] at ha
      simp at ha
    | some p =>
      rw [ancestorChain_some hck] at ha
      have hp : p ∈ treeKeys (buildTree cmds) := buildTree_parent_mem hn k p hmem hck
      have hplen : p.length ≤ m :=
        Nat.lt_succ_iff.mp (Nat.lt_of_lt_of_le (cutLast_length hck) hk)
      rcases List.mem_cons.mp ha with rfl | hatail
      · exact hp
      · exact ih p hplen hp a hatail

theorem isHelpTok_head {a : Str} (h : isHelpTok a = true) : a.head? = some '-' := by
  rcases isHelpTok_cases h with rfl | rfl | rfl <;> rfl

theorem isVersionTok_cases {a : Str} (h : isVersionTok a = true) :
    a = str "-v" ∨ a = str "-version" ∨ a = str "--version" := by
  unfold isVersionTok at h
  simp at h
  tauto

theorem isVersionTok_head {a : Str} (h : isVersionTok a = true) : a.head? = some '-' := by
  rcases isVersionTok_cases h with rfl | rfl | rfl <;> rfl

theorem mem_keys_buildTree_of_mem0 {cmds : List (Str × CommandFactory)} {k : Str}
    (h : k ∈ treeKeys (buildTree0 cmds)) : k ∈ treeKeys (buildTree cmds) := by
  unfold buildTree
  cases hn : commandNested cmds with
  | false => simpa using h
  | true =>
    simp only [if_true]
    rw [mem_keys_foldl_treeInsert (fun k => k) (fun _ => placeholderFactory)]
    exact Or.inr h

/-- C3, counterexample: with registry `{"foo"}` and input `["bar"]` the
classified `subcommandPath` is `"bar"`, which is neither empty nor a
registered key. -/
theorem c3_counterexample :
    (processArgs c3Cmds [str "bar"]).subcommand = str "bar" ∧
    (treeGet (buildTree c3Cmds) (str "bar")).isSome = false ∧
    str "bar" ≠ ([] : Str) := by
  refine ⟨by decide, by decide, by decide⟩

/-- C3, amended: after classification `subcommandPath` is either empty, an
exact key of the post-synthesis registry, or one of the input tokens (the
first non-flag token is kept even when it resolves to nothing, in which
case `Run` later fails with 127). -/
theorem c3_amended (cmds : List (Str × CommandFactory)) (args : List Str) :
    (processArgs cmds args).subcommand = [] ∨
    (treeGet (buildTree cmds) ((processArgs cmds args).subcommand)).isSome = true ∨
    (processArgs cmds args).subcommand ∈ args := by
  rw [processArgs_sub_eq]
  have h := scan_sub_inv (commandNested cmds) (buildTree cmds) args args initState
    (Or.inl rfl) (fun a ha => ha)
  rcases h with h | h | h
  · exact Or.inl h
  · exact Or.inr (Or.inl (treeGet_isSome_iff.mpr h))
  · exact Or.inr (Or.inr h)

/-- C4: in a nested registry, every ancestor path (repeated trimming at
the last space) of every registered key is itself registered, caller-
supplied or auto-inserted. -/
theorem c4_ancestors (cmds : List (Str × CommandFactory))
    (hn : commandNested cmds = true) (k : Str)
    (hk : (treeGet (buildTree cmds) k).isSome = true) :
    ∀ a ∈ ancestorChain k, (treeGet (buildTree cmds) a).isSome = true := by
  intro a ha
  exact treeGet_isSome_iff.mpr
    (buildTree_ancestors_mem hn k.length k le_rfl (treeGet_isSome_iff.mp hk) a ha)

/-- C4, witness: registering only `"foo bar baz"` makes both ancestors
`"foo bar"` and `"foo"` resolvable. -/
theorem c4_ancestors_witness :
    commandNested c4Cmds = true ∧
    (treeGet (buildTree c4Cmds) (str "foo bar baz")).isSome = true ∧
    ancestorChain (str "foo bar baz") = [str "foo bar", str "foo"] ∧
    ∀ a ∈ ancestorChain (str "foo bar baz"),
      (treeGet (buildTree c4Cmds) a).isSome = true :=
  ⟨by decide, by decide, by decide,
    c4_ancestors c4Cmds (by decide) (str "foo bar baz") (by decide)⟩

/-- C9: whenever classification yields a non-empty `subcommandPath`, the
`subcommandArgs` are a contiguous suffix of the original argument
vector. -/
theorem c9_suffix (cmds : List (Str × CommandFactory)) (args : List Str)
    (h : (processArgs cmds args).subcommand ≠ []) :
    (processArgs cmds args).subcommandArgs <:+ args := by
  have hsc : (scanOf cmds args).1.subcommand ≠ [] := by
    rw [processArgs_sub_eq] at h
    exact h
  rw [processArgs_of_sub_ne cmds args hsc]
  exact scan_subArgs_suffix (commandNested cmds) (buildTree cmds) args args initState
    List.nil_suffix (List.suffix_refl args)

/-- C9, witness at registry `{"foo","foo bar"}` and input
`["foo","-b","z"]`. -/
theorem c9_suffix_witness :
    (processArgs fooCmds [str "foo", str "-b", str "z"]).subcommand ≠ [] ∧
    (processArgs fooCmds [str "foo", str "-b", str "z"]).subcommandArgs <:+
      [str "foo", str "-b", str "z"] :=
  ⟨by decide, c9_suffix fooCmds [str "foo", str "-b", str "z"] (by decide)⟩

/-- C10: every `Commands` key is trimmed before insertion, so the trimmed
form is always resolvable; and for the example key `" foo "`, lookup
succeeds on `"foo"` but fails on the original spaced string. -/
theorem c10_trimmed (cmds : List (Str × CommandFactory)) (k : Str) (f : CommandFactory)
    (hmem : (k, f) ∈ cmds) :
    (treeGet (buildTree cmds) (trimSpace k)).isSome = true ∧
    (treeGet (buildTree [(str " foo ", f)]) (str "foo")).isSome = true ∧
    treeGet (buildTree [(str " foo ", f)]) (str " foo ") = none := by
  refine ⟨?_, by rfl, by rfl⟩
  apply treeGet_isSome_iff.mpr
  apply mem_keys_buildTree_of_mem0
  exact mem_keys_buildTree0.mpr ⟨(k, f), hmem, rfl⟩

/-- C10, witness: the key `" foo "` of the fixture registry. -/
theorem c10_trimmed_witness :
    (str " foo ", okRet 3) ∈ c10Cmds ∧
    (treeGet (buildTree c10Cmds) (trimSpace (str " foo "))).isSome = true ∧
    trimSpace (str " foo ") = str "foo" :=
  ⟨List.mem_singleton.mpr rfl,
    (c10_trimmed c10Cmds (str " foo ") (okRet 3) (List.mem_singleton.mpr rfl)).1,
    by decide⟩

/-- C1, counterexample: with nested registry `{"a","a b"}` and input
`["ab","a"]` the candidate is `"ab a"`, its longest-prefix match is `"a"`,
which does not end at a segment boundary of the candidate (`"ab a"` does
not continue with a space after offset 1) — yet the match is accepted
(the verification regex is unanchored and finds the trailing `"a"`), so
`subcommandPath` becomes `"a"`, not the first token `"ab"`. -/
theorem c1_counterexample :
    commandNested c1Cmds = true ∧
    searchKeyOf (str "ab") [str "a"] = str "ab a" ∧
    (longestPrefixMatch (buildTree c1Cmds) (searchKeyOf (str "ab") [str "a"])).map
      Prod.fst = some (str "a") ∧
    specBoundaryAligned (str "a") (searchKeyOf (str "ab") [str "a"]) = false ∧
    (processArgs c1Cmds c1Args).subcommand = str "a" ∧
    str "a" ≠ str "ab" := by
  refine ⟨by decide, by decide, by decide, by decide, by decide, by decide⟩

/-- C1, amended: the verification regex is unanchored, so a longest-prefix
match is rejected only when the matched key occurs nowhere in the
candidate followed by a space or end-of-string; when the lookup fails or
the regex fails, `subcommandPath` remains the single first token.  The §8
instance holds: registry `{"foo","foo bar"}`, input `["foobar"]` exits
127. -/
theorem c1_amended (cmds : List (Str × CommandFactory)) (tok : Str) (rest : List Str)
    (hn : commandNested cmds = true)
    (h0 : tok ≠ [])
    (h1 : tok.head? ≠ some '-')
    (h2 : containsSpace tok = false)
    (hrej : nestedMatchRejected (buildTree cmds) (searchKeyOf tok rest) = true) :
    (processArgs cmds (tok :: rest)).subcommand = tok ∧
    (Run { Args := [str "foobar"], Commands := fooCmds, Version := [] }).code = 127 := by
  refine ⟨?_, by decide⟩
  rw [processArgs_sub_eq]
  unfold scanOf
  have hdd : (tok == str "--") = false :=
    beq_eq_false_iff_ne.mpr (fun e => h1 (by rw [e]; rfl))
  have hht : isHelpTok tok = false := by
    cases hh : isHelpTok tok
    · rfl
    · exact absurd (isHelpTok_head hh) h1
  have hvt : isVersionTok tok = false := by
    cases hv : isVersionTok tok
    · rfl
    · exact absurd (isVersionTok_head hv) h1
  have hne : (tok == ([] : Str)) = false := beq_eq_false_iff_ne.mpr h0
  have hhd : (tok.head? == some '-') = false := by
    cases hh : tok.head? == some '-'
    · rfl
    · exact absurd (eq_of_beq hh) h1
  have hstep : (nestedStep (buildTree cmds) tok rest).1 = tok := by
    unfold nestedMatchRejected at hrej
    unfold nestedStep
    cases hlp : longestPrefixMatch (buildTree cmds) (searchKeyOf tok rest) with
    | none => rfl
    | some kf =>
      rw [hlp] at hrej
      have hrv : reVerifyMatch kf.1 (searchKeyOf tok rest) = false := by
        simpa using hrej
      simp [hrv]
  simp only [scanLoop, hdd, hht, hvt, hn, hne, hhd, h2, Bool.false_eq_true, if_false,
    Bool.not_false, Bool.and_false, if_true, initState, beq_self_eq_true]
  exact ((scan_sub_ne true (buildTree cmds) rest
    { initState with
        subcommand := (nestedStep (buildTree cmds) tok rest).1,
        subcommandArgs := rest.drop (nestedStep (buildTree cmds) tok rest).2 }
    (fun e => h0 (hstep.symm.trans e))).1).trans hstep

/-- C1, witness for the amended statement: nested registry `{"x","x y"}`
with probe token `"zq"` (no prefix match at all), so the subcommand stays
`"zq"`. -/
theorem c1_amended_witness :
    commandNested c1wCmds = true ∧
    nestedMatchRejected (buildTree c1wCmds) (searchKeyOf (str "zq") []) = true ∧
    (processArgs c1wCmds [str "zq"]).subcommand = str "zq" :=
  ⟨by decide, by decide,
    (c1_amended c1wCmds (str "zq") [] (by decide) (by decide) (by decide) (by decide)
      (by decide)).1⟩

/-- C2, counterexample: a factory construction error produces none of the
five §8 outcomes (it returns exit code 1 with a non-nil error and writes
nothing). -/
theorem c2_counterexample :
    outcomeCount (Run { Args := [str "foo"], Commands := c2Cmds, Version := [] }) = 0 ∧
    (Run { Args := [str "foo"], Commands := c2Cmds, Version := [] }).code = 1 ∧
    (Run { Args := [str "foo"], Commands := c2Cmds, Version := [] }).errOut = true := by
  refine ⟨by decide, by decide, by decide⟩

/-- C2, amended: when every caller-supplied factory constructs
successfully, one invocation of `Run` produces exactly one of the five
outcomes {version-shown, help-shown, command-dispatched, unresolved-127,
leading-flag-error}; a failing factory instead produces a sixth,
construction-error outcome (exit 1, non-nil error) with none of the
five. -/
theorem c2_amended (c : CLI) (hok : factoriesOk c.Commands = true) :
    outcomeCount (Run c) = 1 := by
  unfold Run runWith
  split
  · rfl
  · split
    · rfl
    · split
      · rfl
      · next e heq => exact (Bool.false_ne_true (treeGet_buildTree_ok hok heq)).elim
      · split
        · rfl
        · split
          · rfl
          · split
            · rfl
            · rfl

/-- C2, witness: an ordinary dispatch on registry `{"foo","foo bar"}`
yields exactly one outcome. -/
theorem c2_amended_witness :
    factoriesOk fooCmds = true ∧
    outcomeCount (Run { Args := [str "foo"], Commands := fooCmds, Version := [] }) = 1 :=
  ⟨by decide, c2_amended { Args := [str "foo"], Commands := fooCmds, Version := [] } (by decide)⟩

/-- C7, counterexample: with registry `{"foo"}` (no default command) and
input `["-h"]`, the classified path `""` is not a registry key, yet `Run`
prints root help to the help sink and returns 0, not 127 with parent help
on the error sink. -/
theorem c7_counterexample :
    (treeGet (buildTree c3Cmds) ((processArgs c3Cmds [str "-h"]).subcommand)).isSome = false ∧
    (Run { Args := [str "-h"], Commands := c3Cmds, Version := [] }).code = 0 ∧
    unresolved127 (Run { Args := [str "-h"], Commands := c3Cmds, Version := [] }) = false := by
  refine ⟨by decide, by decide, by decide⟩

/-- C7, amended: when neither the version short-circuit nor the root-help
short-circuit applies and the classified path is not a registry key, `Run`
writes the parent's help listing to the error sink and returns 127 without
invoking any factory or running any command. -/
theorem c7_amended (c : CLI)
    (hv : ((processArgs c.Commands c.Args).isVersion && !(c.Version == [])) = false)
    (hh : ((processArgs c.Commands c.Args).isHelp &&
      ((processArgs c.Commands c.Args).subcommand == [])) = false)
    (hg : treeGet (buildTree c.Commands) ((processArgs c.Commands c.Args).subcommand) = none) :
    (Run c).code = 127 ∧
    (Run c).errSink =
      [SinkMsg.helpListing (subcommandParent ((processArgs c.Commands c.Args).subcommand))] ∧
    (Run c).factoryCalls = 0 ∧ (Run c).ranWith = none := by
  unfold Run runWith
  rw [hv, hh, hg]
  exact ⟨rfl, rfl, rfl, rfl⟩

/-- C7, witness: unknown command `"zap"` against registry `{"foo"}`. -/
theorem c7_amended_witness :
    treeGet (buildTree c3Cmds) ((processArgs c3Cmds [str "zap"]).subcommand) = none ∧
    (Run { Args := [str "zap"], Commands := c3Cmds, Version := [] }).code = 127 ∧
    (Run { Args := [str "zap"], Commands := c3Cmds, Version := [] }).errSink =
      [SinkMsg.helpListing ([] : Str)] ∧
    subcommandParent (str "zap") = ([] : Str) :=
  ⟨rfl,
    (c7_amended { Args := [str "zap"], Commands := c3Cmds, Version := [] }
      (by decide) (by decide) rfl).1,
    by decide, by decide⟩

/-- C6: a dispatched command returning the sentinel `RunResultHelp` gets
its help rendered to the error sink with exit code 1; any other returned
integer is the exit code verbatim. -/
theorem c6_sentinel (c : CLI) (cmd : Command)
    (hv : ((processArgs c.Commands c.Args).isVersion && !(c.Version == [])) = false)
    (hh : (processArgs c.Commands c.Args).isHelp = false)
    (hg : treeGet (buildTree c.Commands) ((processArgs c.Commands c.Args).subcommand) =
      some (Except.ok cmd))
    (hf : (processArgs c.Commands c.Args).topFlags = []) :
    (Run c).ranWith = some ((processArgs c.Commands c.Args).subcommandArgs) ∧
    (cmd.runFn ((processArgs c.Commands c.Args).subcommandArgs) = RunResultHelp →
      (Run c).code = 1 ∧
      (Run c).errSink = [SinkMsg.commandHelp ((processArgs c.Commands c.Args).subcommand)]) ∧
    (cmd.runFn ((processArgs c.Commands c.Args).subcommandArgs) ≠ RunResultHelp →
      (Run c).code = cmd.runFn ((processArgs c.Commands c.Args).subcommandArgs) ∧
      (Run c).errSink = []) := by
  unfold Run runWith
  simp only [hv, hh, hg, hf, Bool.false_eq_true, if_false, Bool.false_and,
    beq_self_eq_true, Bool.not_true]
  by_cases hr : cmd.runFn ((processArgs c.Commands c.Args).subcommandArgs) = RunResultHelp
  · rw [if_pos hr]
    exact ⟨rfl, fun _ => ⟨rfl, rfl⟩, fun hnr => absurd hr hnr⟩
  · rw [if_neg hr]
    exact ⟨rfl, fun he => absurd he hr, fun _ => ⟨rfl, rfl⟩⟩

/-- C6, witness: the sentinel-returning command under `"foo"` maps to exit
code 1 with its help on the error sink. -/
theorem c6_sentinel_witness :
    treeGet (buildTree c6Cmds) ((processArgs c6Cmds [str "foo"]).subcommand) =
      some (Except.ok cmdHelpReq) ∧
    cmdHelpReq.runFn ((processArgs c6Cmds [str "foo"]).subcommandArgs) = RunResultHelp ∧
    (Run { Args := [str "foo"], Commands := c6Cmds, Version := [] }).code = 1 ∧
    (Run { Args := [str "foo"], Commands := c6Cmds, Version := [] }).errSink =
      [SinkMsg.commandHelp (str "foo")] := by
  refine ⟨rfl, by decide, ?_, by decide⟩
  exact ((c6_sentinel { Args := [str "foo"], Commands := c6Cmds, Version := [] } cmdHelpReq
    (by decide) (by decide) rfl (by decide)).2.1 (by decide)).1

/-- C5: when the scan finishes (without aborting) with no command path and
a `""` entry exists in the caller's map, the default command is selected:
empty path, `subcommandArgs` = accumulated leading flags followed by the
accumulated trailing arguments, leading flags cleared — so no
leading-flag error can be raised for the default command. -/
theorem c5_default (cmds : List (Str × CommandFactory)) (args : List Str) (version : Str)
    (hearly : (scanOf cmds args).2 = false)
    (hsub : (scanOf cmds args).1.subcommand = [])
    (hdef : hasEmptyKey cmds = true) :
    processArgs cmds args =
      { (scanOf cmds args).1 with
          subcommandArgs := (scanOf cmds args).1.topFlags ++
            (scanOf cmds args).1.subcommandArgs,
          topFlags := [] } ∧
    leadingFlagError (Run { Args := args, Commands := cmds, Version := version }) = false := by
  have hpa : processArgs cmds args =
      { (scanOf cmds args).1 with
          subcommandArgs := (scanOf cmds args).1.topFlags ++
            (scanOf cmds args).1.subcommandArgs,
          topFlags := [] } := by
    unfold processArgs
    rcases hs : scanOf cmds args with ⟨st, early⟩
    rw [hs] at hearly hsub
    simp only at hearly hsub
    subst hearly
    simp only [Bool.false_eq_true, if_false]
    rw [if_pos (by rw [hsub, hdef]; rfl)]
  refine ⟨hpa, ?_⟩
  have htf : (processArgs cmds args).topFlags = [] := by rw [hpa]
  unfold Run leadingFlagError runWith
  dsimp only
  split
  · rfl
  · split
    · rfl
    · split
      · rfl
      · rfl
      · split
        · rfl
        · split
          · next h4 =>
            exfalso
            rw [htf] at h4
            exact absurd h4 (by decide)
          · split
            · rfl
            · rfl

/-- C5, witness: default command with a leading flag `"-x"`. -/
theorem c5_default_witness :
    (scanOf c5Cmds [str "-x"]).2 = false ∧
    (scanOf c5Cmds [str "-x"]).1.subcommand = [] ∧
    hasEmptyKey c5Cmds = true ∧
    processArgs c5Cmds [str "-x"] =
      { (scanOf c5Cmds [str "-x"]).1 with
          subcommandArgs := (scanOf c5Cmds [str "-x"]).1.topFlags ++
            (scanOf c5Cmds [str "-x"]).1.subcommandArgs,
          topFlags := [] } ∧
    leadingFlagError (Run { Args := [str "-x"], Commands := c5Cmds, Version := [] }) = false :=
  ⟨by decide, by decide, by decide,
    (c5_default c5Cmds [str "-x"] [] (by decide) (by decide) (by decide)).1,
    (c5_default c5Cmds [str "-x"] [] (by decide) (by decide) (by decide)).2⟩

/-- C8, counterexample: with nested registry `{"x y"}` and input
`["a b","-h","--"]`, the token `"-h"` occurs before the `"--"`, yet the
help flag is NOT set — the space-containing command token `"a b"` aborts
the scan before `"-h"` is ever examined. -/
theorem c8_counterexample :
    isHelpTok (str "-h") = true ∧
    [str "a b", str "-h", str "--"] = [str "a b"] ++ str "-h" :: [str "--"] ∧
    str "--" ∉ [str "a b"] ∧
    (processArgs c8Cmds [str "a b", str "-h", str "--"]).isHelp = false := by
  refine ⟨by decide, by decide, by decide, by decide⟩

/-- C8, amended: a help token before `"--"` sets the help flag provided
the scan is not aborted by a space-containing nested command token; and no
token after the first `"--"` ever influences the help or version flag. -/
theorem c8_amended (cmds cmds₂ : List (Str × CommandFactory))
    (args pre post pre₂ post₂ : List Str) (tok : Str)
    (htok : isHelpTok tok = true)
    (hsplit : args = pre ++ tok :: post)
    (hpre : str "--" ∉ pre)
    (hnoabort : (scanOf cmds args).2 = false)
    (hpre₂ : str "--" ∉ pre₂) :
    (processArgs cmds args).isHelp = true ∧
    (processArgs cmds₂ (pre₂ ++ str "--" :: post₂)).isHelp =
      (processArgs cmds₂ (pre₂ ++ [str "--"])).isHelp ∧
    (processArgs cmds₂ (pre₂ ++ str "--" :: post₂)).isVersion =
      (processArgs cmds₂ (pre₂ ++ [str "--"])).isVersion := by
  refine ⟨?_, ?_, ?_⟩
  · rw [processArgs_isHelp]
    subst hsplit
    exact scan_help_sets (commandNested cmds) (buildTree cmds) post tok htok pre
      initState hpre hnoabort
  · rw [processArgs_isHelp, processArgs_isHelp]
    exact (scan_stop_at_ddash (commandNested cmds₂) (buildTree cmds₂) post₂ pre₂
      initState hpre₂).1
  · rw [processArgs_isVersion, processArgs_isVersion]
    exact (scan_stop_at_ddash (commandNested cmds₂) (buildTree cmds₂) post₂ pre₂
      initState hpre₂).2.1

/-- C8, witness: `["foo","-h"]` sets the help flag (no abort occurs), and
flags after `"--"` are inert. -/
theorem c8_amended_witness :
    isHelpTok (str "-h") = true ∧
    (scanOf c8Cmds [str "foo", str "-h"]).2 = false ∧
    (processArgs c8Cmds [str "foo", str "-h"]).isHelp = true :=
  ⟨by decide, by decide,
    (c8_amended c8Cmds c8Cmds [str "foo", str "-h"] [str "foo"] [] [str "p"] []
      (str "-h") (by decide) rfl (by decide) (by decide) (by decide)).1⟩

end CliSpec
